import Mathlib

/-!
Ikarus.Logger: a shallow embedding of `logger.h`.

The process-wide `Logger` singleton is modelled as a record of its data members.
Every member function becomes a pure function on that record.  The values of the
two helpers `timestamp()` and `threadId()` are passed in as arguments (`ts`, `tid`):
`tid` is the rendered identity of the calling thread, `ts` the clock reading of the
call.  Operations of different threads are modelled as an interleaving of whole
member-function calls, which is what the two mutexes of the class enforce for the
map updates and for the sink writes.

The standard-library objects the class uses are modelled next to it:
`StdMap` for `std::map<std::string, V>`, `FStream` for `std::fstream`, and a
`trace` of the stream statements the logger executes.
-/

namespace IkarusLogger

/-! ## Enumerations -/

/-- The enumeration `LogLevel`, enumerators in declaration order. -/
inductive LogLevel
  | Info
  | Debug
  | Error
  | Warning
  | Fatal
  deriving DecidableEq, Repr

/-- The underlying value of an enumerator (declaration order, from zero). -/
def LogLevel.toNat : LogLevel → Nat
  | .Info => 0
  | .Debug => 1
  | .Error => 2
  | .Warning => 3
  | .Fatal => 4

/-- Value-initialisation of a `LogLevel`, as `std::map::operator[]` performs it for
a missing key: the enumerator whose underlying value is zero. -/
def LogLevel.valueInit : LogLevel := .Info

/-- The enumeration `LogOutput`. -/
inductive LogOutput
  | Console
  | File
  | Everywhere
  deriving DecidableEq, Repr

/-! ## `logToString` -/

/-- The local table `M_LEVEL_MAP` of `logToString`. -/
def M_LEVEL_MAP : List (LogLevel × String) :=
  [ (LogLevel.Info, "INFO"),
    (LogLevel.Debug, "DEBUG"),
    (LogLevel.Warning, "WARNING"),
    (LogLevel.Error, "ERROR"),
    (LogLevel.Fatal, "FATAL") ]

/-- The function `logToString`: look the level up in the table, `"NONE"` when the
lookup finds nothing. -/
def logToString (level : LogLevel) : String :=
  match M_LEVEL_MAP.lookup level with
  | some tok => tok
  | none => "NONE"

/-- The constant `IkarusLogger::endl`. -/
def endl : String := "\n"

/-! ## `std::map<std::string, V>` -/

/-- A `std::map` keyed by strings: its entries in iteration (key) order. -/
abbrev StdMap (V : Type) := List (String × V)

/-- Lexicographic comparison of character sequences, a proper prefix first. -/
def lessChars : List Char → List Char → Bool
  | [], [] => false
  | [], _ :: _ => true
  | _ :: _, [] => false
  | a :: as, b :: bs =>
    if a.toNat < b.toNat then true
    else if b.toNat < a.toNat then false
    else lessChars as bs

/-- The comparison `std::less<std::string>` that orders the keys of the maps. -/
def stringLess (a b : String) : Bool := lessChars a.data b.data

namespace StdMap

variable {V : Type}

/-- The member `find`: the value stored under `k`, if any. -/
def find (k : String) : StdMap V → Option V
  | [] => none
  | (k', v) :: m => if k' = k then some v else find k m

/-- Store `v` under `k`, replacing the value of an existing entry and keeping the
entries in key order. -/
def insert (k : String) (v : V) : StdMap V → StdMap V
  | [] => [(k, v)]
  | (k', v') :: m =>
    if stringLess k k' then (k, v) :: (k', v') :: m
    else if k' = k then (k, v) :: m
    else (k', v') :: insert k v m

/-- The member `operator[]`: when `k` has no entry, one holding the
value-initialised `dflt` is created; the result is the map and the value under `k`. -/
def subscript (k : String) (dflt : V) (m : StdMap V) : StdMap V × V :=
  match find k m with
  | some v => (m, v)
  | none => (insert k dflt m, dflt)

/-- The member `erase(key)`: no entry under `k` is left. -/
def erase (k : String) (m : StdMap V) : StdMap V :=
  m.filter (fun e => decide (e.1 ≠ k))

/-- The member `clear()`. -/
def clear (_m : StdMap V) : StdMap V := []

end StdMap

/-! ## `std::fstream` -/

/-- The state of the `std::fstream` member: whether a file is associated, whether
an error bit is set, and the bytes the associated file has received. -/
structure FStream where
  is_open : Bool
  failed : Bool
  content : String
  deriving DecidableEq, Repr

namespace FStream

/-- A default-constructed stream. -/
def init : FStream := { is_open := false, failed := false, content := "" }

/-- The call `open(name, std::ios::out)`; `ok` tells whether the system can open
the file for writing.  Opening an already open stream fails; a successful open
truncates the file and clears the error bits. -/
def «open» (ok : Bool) (f : FStream) : FStream :=
  if f.is_open then { f with failed := true }
  else if ok then { is_open := true, failed := false, content := "" }
  else { f with failed := true }

/-- The call `close()`; closing a stream that is not open sets an error bit. -/
def close (f : FStream) : FStream :=
  if f.is_open then { f with is_open := false }
  else { f with failed := true }

/-- The statement `f << text << std::endl`: the bytes reach the file only when the
stream is open and has no error bit set; writing to a stream without a file sets
an error bit. -/
def write (bytes : String) (f : FStream) : FStream :=
  if f.failed then f
  else if f.is_open then { f with content := f.content ++ bytes }
  else { f with failed := true }

/-- The call `flush()`: every record was already flushed by its `std::endl`. -/
def flush (f : FStream) : FStream := f

end FStream

/-- The stream statements the logger executes, in execution order. -/
inductive StreamOp
  | coutWrite (bytes : String)
  | fileWrite (bytes : String)
  | fileOpen (name : String)
  | fileClose
  | fileFlush
  deriving DecidableEq, Repr

/-- The bytes of the record writes among the executed stream statements. -/
def records : List StreamOp → List String
  | [] => []
  | StreamOp.coutWrite b :: t => b :: records t
  | StreamOp.fileWrite b :: t => b :: records t
  | _ :: t => records t

/-- The record writes addressed to the file stream. -/
def fileRecords : List StreamOp → List String
  | [] => []
  | StreamOp.fileWrite b :: t => b :: fileRecords t
  | _ :: t => fileRecords t

/-- The record writes addressed to `std::cout`. -/
def coutRecords : List StreamOp → List String
  | [] => []
  | StreamOp.coutWrite b :: t => b :: coutRecords t
  | _ :: t => coutRecords t

/-- The number of `open` calls made on the file stream. -/
def fileOpens : List StreamOp → Nat
  | [] => 0
  | StreamOp.fileOpen _ :: t => fileOpens t + 1
  | _ :: t => fileOpens t

/-! ## The class `Logger` -/

/-- The data members of `Logger`, and the stream statements executed so far. -/
structure Logger where
  m_fileName : String
  m_file : FStream
  m_output : LogOutput
  m_threadsLevelMap : StdMap LogLevel
  m_threadLinesMap : StdMap String
  m_isOpened : Bool
  trace : List StreamOp
  deriving DecidableEq, Repr

/-- A log record before rendering. -/
structure Record where
  timestamp : String
  threadId : String
  level : LogLevel
  message : String
  deriving DecidableEq, Repr

namespace Logger

/-- The singleton returned by `get()` at first access: members default-initialised. -/
def get : Logger :=
  { m_fileName := "", m_file := FStream.init, m_output := LogOutput.Everywhere,
    m_threadsLevelMap := [], m_threadLinesMap := [], m_isOpened := false, trace := [] }

/-- The helper `wrapBlock(value, "[", "]")`. -/
def wrapBlock (value : String) (pre : String) (sufix : String) : String :=
  pre ++ value ++ sufix

/-- The local `result` of `log`: the rendered record. -/
def result (ts tid : String) (msg : String) (level : LogLevel) : String :=
  wrapBlock ts "[" "]" ++ " " ++ wrapBlock tid "[" "]" ++ " " ++
    wrapBlock (logToString level) "[" "]" ++ " " ++ msg

/-- The member `init(fileName, output)`. -/
def init (fileName : String) (output : LogOutput) (s : Logger) : Logger :=
  { s with m_fileName := fileName, m_output := output }

/-- The test `m_output == Everywhere || m_output == File`. -/
def usesFile (s : Logger) : Bool :=
  decide (s.m_output = LogOutput.Everywhere) || decide (s.m_output = LogOutput.File)

/-- The member `open()`; `canOpen` tells which files the system can open for
writing.  The first component is the normal return or the thrown
`std::runtime_error`, the second the state left behind. -/
def «open» (canOpen : String → Bool) (s : Logger) : Except String Unit × Logger :=
  if s.m_isOpened then (Except.ok (), s)
  else if s.usesFile then
    let f := FStream.open (canOpen s.m_fileName) s.m_file
    let s1 := { s with m_file := f, m_isOpened := f.is_open,
                       trace := s.trace ++ [StreamOp.fileOpen s.m_fileName] }
    if !s1.m_isOpened then (Except.error "Couldn't open a log file!", s1)
    else (Except.ok (), { s1 with m_isOpened := true })
  else (Except.ok (), { s with m_isOpened := true })

/-- The member `close()`. -/
def close (s : Logger) : Logger :=
  if !s.m_isOpened then s
  else if s.usesFile then
    { s with m_file := s.m_file.close, trace := s.trace ++ [StreamOp.fileClose] }
  else s

/-- The member `log(const std::string& msg, level)`. -/
def log (ts tid : String) (msg : String) (level : LogLevel) (s : Logger) : Logger :=
  let result := Logger.result ts tid msg level
  if s.m_output = LogOutput.Console then
    { s with trace := s.trace ++ [StreamOp.coutWrite (result ++ "\n")] }
  else if s.m_output = LogOutput.File then
    { s with m_file := s.m_file.write (result ++ "\n"),
             trace := s.trace ++ [StreamOp.fileWrite (result ++ "\n")] }
  else
    { s with trace := s.trace ++ [StreamOp.coutWrite (result ++ "\n")] }

/-- The member template `log(const T& t, level)`; `rendered` is `ss.str()` after
`ss << t`.  At `T = std::stringbuf*`, the instance the two flushes call, `ss << t`
copies the characters held by the buffer. -/
def logT (ts tid : String) (rendered : String) (level : LogLevel) (s : Logger) : Logger :=
  s.log ts tid rendered level

/-- The member `addChunk(chunk)` called by thread `tid`. -/
def addChunk (tid : String) (chunk : String) (s : Logger) : Logger :=
  let line := StdMap.subscript tid "" s.m_threadLinesMap
  { s with m_threadLinesMap := StdMap.insert tid (line.2 ++ chunk) line.1 }

/-- The member `flushChunk()` called by thread `tid`. -/
def flushChunk (ts tid : String) (s : Logger) : Logger :=
  let threadID := tid
  let line := StdMap.subscript threadID "" s.m_threadLinesMap
  let lvl := StdMap.subscript threadID LogLevel.valueInit s.m_threadsLevelMap
  let s1 := { s with m_threadLinesMap := line.1, m_threadsLevelMap := lvl.1 }
  let s2 := s1.logT ts tid line.2 lvl.2
  { s2 with m_threadLinesMap := StdMap.erase threadID s2.m_threadLinesMap,
            m_threadsLevelMap := StdMap.erase threadID s2.m_threadsLevelMap }

/-- The member `operator()(level)` called by thread `tid`. -/
def select (tid : String) (level : LogLevel) (s : Logger) : Logger :=
  { s with m_threadsLevelMap := StdMap.insert tid level s.m_threadsLevelMap }

/-- The loop of `flush()` over the entries of `m_threadLinesMap`; `clock i` is the
clock reading of the log call for entry number `i`. -/
def flushLoop (clock : Nat → String) (tid : String) :
    Nat → List (String × String) → Logger → Logger
  | _, [], s => s
  | i, (k, text) :: rest, s =>
    let lvl := StdMap.subscript k LogLevel.valueInit s.m_threadsLevelMap
    let s1 := { s with m_threadsLevelMap := lvl.1 }
    flushLoop clock tid (i + 1) rest (s1.logT (clock i) tid text lvl.2)

/-- The member `flush()` called by thread `tid`. -/
def flush (clock : Nat → String) (tid : String) (s : Logger) : Logger :=
  if !s.m_isOpened then s
  else
    let s1 := flushLoop clock tid 0 s.m_threadLinesMap s
    let s2 := { s1 with m_threadLinesMap := StdMap.clear s1.m_threadLinesMap,
                        m_threadsLevelMap := StdMap.clear s1.m_threadsLevelMap }
    if s2.usesFile then
      { s2 with m_file := s2.m_file.flush, trace := s2.trace ++ [StreamOp.fileFlush] }
    else s2

/-- The string form `operator<<(Logger&, const std::string&)` called by `tid`. -/
def shl (ts tid : String) (chunk : String) (s : Logger) : Logger :=
  if chunk = IkarusLogger.endl then s.flushChunk ts tid
  else s.addChunk tid chunk

/-- The template form `operator<<(Logger&, const T&)`; `rendered` is `ss.str()`
after `ss << t`. -/
def shlT (tid : String) (rendered : String) (s : Logger) : Logger :=
  s.addChunk tid rendered

/-- The file stream holds a file only if the logger is marked open; true of the
fresh singleton and kept by every member function. -/
def Consistent (s : Logger) : Prop :=
  s.m_file.is_open = true → s.m_isOpened = true

end Logger

/-- The function `logObj(level)`. -/
def logObj (tid : String) (level : LogLevel) (s : Logger) : Logger :=
  s.select tid level

/-- The default argument `LogLevel::Debug` that `log` and `logObj` declare. -/
def defaultLevel : LogLevel := LogLevel.Debug

/-- The rendering of a record, as the record format lays it out. -/
def Record.render (r : Record) : String :=
  "[" ++ r.timestamp ++ "] [" ++ r.threadId ++ "] [" ++ logToString r.level ++ "] "
    ++ r.message

/-! ## Sequences of calls -/

/-- A call of the incremental protocol that does not end the line. -/
inductive ChainOp
  | select (level : LogLevel)
  | append (chunk : String)
  deriving DecidableEq, Repr

/-- Run one call of thread `tid`. -/
def ChainOp.run (tid : String) : ChainOp → Logger → Logger
  | .select level, s => s.select tid level
  | .append chunk, s => s.addChunk tid chunk

/-- Run the calls of thread `tid` in order. -/
def runChain (tid : String) (ops : List ChainOp) (s : Logger) : Logger :=
  ops.foldl (fun st op => op.run tid st) s

/-- The chunks appended by a sequence of calls, in call order. -/
def chunksOf : List ChainOp → List String
  | [] => []
  | .append c :: ops => c :: chunksOf ops
  | .select _ :: ops => chunksOf ops

/-- The level of the last `select` of a sequence, `dflt` when there is none. -/
def lastSelect (dflt : LogLevel) : List ChainOp → LogLevel
  | [] => dflt
  | .select l :: ops => lastSelect l ops
  | .append _ :: ops => lastSelect dflt ops

/-- Concatenation of chunks, first chunk first. -/
def concatChunks : List String → String
  | [] => ""
  | c :: cs => c ++ concatChunks cs

/-- A call of the incremental protocol: `select`, `append`, or the end-of-line
sentinel (with the clock reading of its log call). -/
inductive Op
  | select (level : LogLevel)
  | append (chunk : String)
  | sentinel (ts : String)
  deriving DecidableEq, Repr

/-- A call together with the identity of the thread that makes it. -/
structure Call where
  tid : String
  op : Op
  deriving DecidableEq, Repr

/-- Run one call. -/
def Call.run (c : Call) (s : Logger) : Logger :=
  match c.op with
  | .select level => s.select c.tid level
  | .append chunk => s.addChunk c.tid chunk
  | .sentinel ts => s.flushChunk ts c.tid

/-- Run an interleaving of calls in order. -/
def runCalls (cs : List Call) (s : Logger) : Logger :=
  cs.foldl (fun st c => c.run st) s

/-- The chunks thread `t` appended after its last sentinel, given the chunks `acc`
it had pending before the calls. -/
def pendingFrom (t : String) : List String → List Call → List String
  | acc, [] => acc
  | acc, c :: cs =>
    match c.op with
    | .select _ => pendingFrom t acc cs
    | .append chunk => pendingFrom t (if c.tid = t then acc ++ [chunk] else acc) cs
    | .sentinel _ => pendingFrom t (if c.tid = t then [] else acc) cs

/-- The chunks thread `t` appended since its previous sentinel (or since the start). -/
def pendingChunks (t : String) (cs : List Call) : List String :=
  pendingFrom t [] cs

/-- The number of `close` calls made on the file stream. -/
def fileCloses : List StreamOp → Nat
  | [] => 0
  | StreamOp.fileClose :: t => fileCloses t + 1
  | _ :: t => fileCloses t

/-- A call of a public member function of the logger.  For `open`, `ok` tells
whether the system can open the file at that call; for `flush`, `clock i` is the
clock reading of its log call number `i`; `tid` is the calling thread. -/
inductive Api
  | init (fileName : String) (output : LogOutput)
  | «open» (ok : Bool)
  | close
  | flush (clock : Nat → String) (tid : String)
  | log (ts tid msg : String) (level : LogLevel)
  | select (tid : String) (level : LogLevel)
  | append (tid : String) (chunk : String)
  | sentinel (ts tid : String)

/-- Run one member-function call; after `open` the state is the one the call
leaves behind, whether it returned or threw. -/
def Api.run : Api → Logger → Logger
  | .init fileName output, s => s.init fileName output
  | .«open» ok, s => (Logger.«open» (fun _ => ok) s).2
  | .close, s => s.close
  | .flush clock tid, s => s.flush clock tid
  | .log ts tid msg level, s => s.log ts tid msg level
  | .select tid level, s => s.select tid level
  | .append tid chunk, s => s.addChunk tid chunk
  | .sentinel ts tid, s => s.flushChunk ts tid

/-- Run member-function calls in order. -/
def runApi (cs : List Api) (s : Logger) : Logger :=
  cs.foldl (fun st c => c.run st) s

end IkarusLogger

/-! # Properties -/

namespace IkarusLogger

/-! ## Auxiliary facts: strings and maps -/

theorem valueInit_is_zero :
    LogLevel.valueInit.toNat = 0 ∧ ∀ l : LogLevel, l.toNat = 0 → l = LogLevel.valueInit := by
  refine ⟨rfl, ?_⟩
  intro l h
  cases l <;> first | rfl | exact absurd h (by decide)

theorem lessChars_irrefl (l : List Char) : lessChars l l = false := by
  induction l with
  | nil => rfl
  | cons a as ih => simp [lessChars, ih]

theorem stringLess_ne {a b : String} (h : stringLess a b = true) : b ≠ a := by
  intro hab
  subst hab
  simp [stringLess, lessChars_irrefl] at h

namespace StdMap

variable {V : Type}

theorem find_insert_self (k : String) (v : V) (m : StdMap V) :
    find k (insert k v m) = some v := by
  induction m with
  | nil => simp [insert, find]
  | cons e m ih =>
    obtain ⟨k', v'⟩ := e
    unfold insert
    by_cases h1 : stringLess k k' = true
    · simp [h1, find]
    · by_cases h2 : k' = k
      · subst h2
        simp [h1, find]
      · simp [h1, h2, find, ih]

theorem find_insert_ne {k k' : String} (h : k' ≠ k) (v : V) (m : StdMap V) :
    find k' (insert k v m) = find k' m := by
  induction m with
  | nil => simp [insert, find, Ne.symm h]
  | cons e m ih =>
    obtain ⟨k0, v0⟩ := e
    unfold insert
    by_cases h1 : stringLess k k0 = true
    · simp [h1, find, Ne.symm h]
    · by_cases h2 : k0 = k
      · subst h2
        simp [h1, find, Ne.symm h]
      · simp [h1, h2, find, ih]

theorem erase_cons (k k0 : String) (v0 : V) (m : StdMap V) :
    erase k ((k0, v0) :: m) = if k0 = k then erase k m else (k0, v0) :: erase k m := by
  by_cases h : k0 = k <;> simp [erase, List.filter_cons, h]

theorem find_erase_self (k : String) (m : StdMap V) : find k (erase k m) = none := by
  induction m with
  | nil => simp [erase, find]
  | cons e m ih =>
    obtain ⟨k0, v0⟩ := e
    by_cases h : k0 = k
    · simpa [erase_cons, h] using ih
    · simpa [erase_cons, h, find] using ih

theorem find_erase_ne {k k' : String} (h : k' ≠ k) (m : StdMap V) :
    find k' (erase k m) = find k' m := by
  induction m with
  | nil => simp [erase, find]
  | cons e m ih =>
    obtain ⟨k0, v0⟩ := e
    by_cases h0 : k0 = k
    · subst h0
      simpa [erase_cons, find, Ne.symm h] using ih
    · by_cases h1 : k0 = k'
      · subst h1
        simp [erase_cons, h0, find]
      · simpa [erase_cons, h0, find, h1] using ih

theorem subscript_snd (k : String) (d : V) (m : StdMap V) :
    (subscript k d m).2 = (find k m).getD d := by
  unfold subscript
  cases h : find k m <;> simp

theorem find_subscript_self (k : String) (d : V) (m : StdMap V) :
    find k (subscript k d m).1 = some ((find k m).getD d) := by
  unfold subscript
  cases h : find k m with
  | none => simp [find_insert_self]
  | some v => simp [h]

theorem find_subscript_ne {k k' : String} (h : k' ≠ k) (d : V) (m : StdMap V) :
    find k' (subscript k d m).1 = find k' m := by
  unfold subscript
  cases hk : find k m with
  | none => simp [find_insert_ne h]
  | some v => simp

theorem getD_find_subscript (k k' : String) (d : V) (m : StdMap V) :
    (find k' (subscript k d m).1).getD d = (find k' m).getD d := by
  by_cases h : k' = k
  · subst h
    simp [find_subscript_self]
  · simp [find_subscript_ne h]

end StdMap

theorem records_append (a b : List StreamOp) : records (a ++ b) = records a ++ records b := by
  induction a with
  | nil => rfl
  | cons op a ih => cases op <;> simp [records, ih]

theorem result_eq_render (ts tid msg : String) (level : LogLevel) :
    Logger.result ts tid msg level = Record.render ⟨ts, tid, level, msg⟩ := by
  apply String.ext
  simp [Logger.result, Logger.wrapBlock, Record.render, String.data_append]

/-! ## Auxiliary facts: single calls -/

namespace Logger

theorem records_log (ts tid msg : String) (level : LogLevel) (s : Logger) :
    records (s.log ts tid msg level).trace
      = records s.trace ++ [Record.render ⟨ts, tid, level, msg⟩ ++ "\n"] := by
  unfold log
  rw [result_eq_render]
  by_cases h1 : s.m_output = LogOutput.Console
  · simp [h1, records_append, records]
  · by_cases h2 : s.m_output = LogOutput.File
    · simp [h2, records_append, records]
    · simp [h1, h2, records_append, records]

theorem log_lines (ts tid msg : String) (level : LogLevel) (s : Logger) :
    (s.log ts tid msg level).m_threadLinesMap = s.m_threadLinesMap := by
  unfold log
  by_cases h1 : s.m_output = LogOutput.Console
  · simp [h1]
  · by_cases h2 : s.m_output = LogOutput.File
    · simp [h2]
    · simp [h1, h2]

theorem log_levels (ts tid msg : String) (level : LogLevel) (s : Logger) :
    (s.log ts tid msg level).m_threadsLevelMap = s.m_threadsLevelMap := by
  unfold log
  by_cases h1 : s.m_output = LogOutput.Console
  · simp [h1]
  · by_cases h2 : s.m_output = LogOutput.File
    · simp [h2]
    · simp [h1, h2]

theorem log_output (ts tid msg : String) (level : LogLevel) (s : Logger) :
    (s.log ts tid msg level).m_output = s.m_output := by
  unfold log
  by_cases h1 : s.m_output = LogOutput.Console
  · simp [h1]
  · by_cases h2 : s.m_output = LogOutput.File
    · simp [h2]
    · simp [h1, h2]

theorem log_isOpened (ts tid msg : String) (level : LogLevel) (s : Logger) :
    (s.log ts tid msg level).m_isOpened = s.m_isOpened := by
  unfold log
  by_cases h1 : s.m_output = LogOutput.Console
  · simp [h1]
  · by_cases h2 : s.m_output = LogOutput.File
    · simp [h2]
    · simp [h1, h2]

theorem addChunk_find_self (tid chunk : String) (s : Logger) :
    StdMap.find tid (s.addChunk tid chunk).m_threadLinesMap
      = some ((StdMap.find tid s.m_threadLinesMap).getD "" ++ chunk) := by
  simp [addChunk, StdMap.find_insert_self, StdMap.subscript_snd]

theorem addChunk_find_ne {tid u : String} (h : u ≠ tid) (chunk : String) (s : Logger) :
    StdMap.find u (s.addChunk tid chunk).m_threadLinesMap
      = StdMap.find u s.m_threadLinesMap := by
  simp [addChunk, StdMap.find_insert_ne h, StdMap.find_subscript_ne h]

theorem select_find_self (tid : String) (level : LogLevel) (s : Logger) :
    StdMap.find tid (s.select tid level).m_threadsLevelMap = some level := by
  simp [select, StdMap.find_insert_self]

theorem select_find_ne {tid u : String} (h : u ≠ tid) (level : LogLevel) (s : Logger) :
    StdMap.find u (s.select tid level).m_threadsLevelMap
      = StdMap.find u s.m_threadsLevelMap := by
  simp [select, StdMap.find_insert_ne h]

theorem records_flushChunk (ts tid : String) (s : Logger) :
    records (s.flushChunk ts tid).trace
      = records s.trace ++
          [Record.render ⟨ts, tid,
              (StdMap.find tid s.m_threadsLevelMap).getD LogLevel.valueInit,
              (StdMap.find tid s.m_threadLinesMap).getD ""⟩ ++ "\n"] := by
  simp [flushChunk, logT, records_log, StdMap.subscript_snd]

theorem flushChunk_lines_self (ts tid : String) (s : Logger) :
    StdMap.find tid (s.flushChunk ts tid).m_threadLinesMap = none := by
  simp [flushChunk, StdMap.find_erase_self]

theorem flushChunk_levels_self (ts tid : String) (s : Logger) :
    StdMap.find tid (s.flushChunk ts tid).m_threadsLevelMap = none := by
  simp [flushChunk, StdMap.find_erase_self]

theorem flushChunk_lines_ne {tid u : String} (h : u ≠ tid) (ts : String) (s : Logger) :
    StdMap.find u (s.flushChunk ts tid).m_threadLinesMap
      = StdMap.find u s.m_threadLinesMap := by
  simp [flushChunk, logT, log_lines, StdMap.find_erase_ne h, StdMap.find_subscript_ne h]

theorem flushChunk_levels_ne {tid u : String} (h : u ≠ tid) (ts : String) (s : Logger) :
    StdMap.find u (s.flushChunk ts tid).m_threadsLevelMap
      = StdMap.find u s.m_threadsLevelMap := by
  simp [flushChunk, logT, log_levels, StdMap.find_erase_ne h, StdMap.find_subscript_ne h]

end Logger

/-! ## Auxiliary facts: chains of one thread -/

theorem runChain_cons (t : String) (op : ChainOp) (ops : List ChainOp) (s : Logger) :
    runChain t (op :: ops) s = runChain t ops (op.run t s) := rfl

theorem runChain_trace (t : String) (ops : List ChainOp) (s : Logger) :
    (runChain t ops s).trace = s.trace := by
  induction ops generalizing s with
  | nil => rfl
  | cons op ops ih =>
    rw [runChain_cons, ih]
    cases op <;> rfl

theorem runChain_line (t : String) (ops : List ChainOp) (s : Logger) :
    (StdMap.find t (runChain t ops s).m_threadLinesMap).getD ""
      = (StdMap.find t s.m_threadLinesMap).getD "" ++ concatChunks (chunksOf ops) := by
  induction ops generalizing s with
  | nil => simp [runChain, chunksOf, concatChunks]
  | cons op ops ih =>
    rw [runChain_cons, ih]
    cases op with
    | select level => simp [ChainOp.run, Logger.select, chunksOf]
    | append chunk =>
      simp [ChainOp.run, Logger.addChunk_find_self, chunksOf, concatChunks,
        String.append_assoc]

theorem runChain_level (t : String) (ops : List ChainOp) (s : Logger) :
    (StdMap.find t (runChain t ops s).m_threadsLevelMap).getD LogLevel.valueInit
      = lastSelect ((StdMap.find t s.m_threadsLevelMap).getD LogLevel.valueInit) ops := by
  induction ops generalizing s with
  | nil => simp [runChain, lastSelect]
  | cons op ops ih =>
    rw [runChain_cons, ih]
    cases op with
    | select level => simp [ChainOp.run, Logger.select_find_self, lastSelect]
    | append chunk => simp [ChainOp.run, Logger.addChunk, lastSelect]

theorem chunksOf_append (a b : List ChainOp) :
    chunksOf (a ++ b) = chunksOf a ++ chunksOf b := by
  induction a with
  | nil => rfl
  | cons op a ih => cases op <;> simp [chunksOf, ih]

theorem chunksOf_appends (chunks : List String) :
    chunksOf (chunks.map ChainOp.append) = chunks := by
  induction chunks with
  | nil => rfl
  | cons c cs ih => simp [chunksOf, ih]

theorem lastSelect_appends (d : LogLevel) (chunks : List String) :
    lastSelect d (chunks.map ChainOp.append) = d := by
  induction chunks with
  | nil => rfl
  | cons c cs ih => simp [lastSelect, ih]

theorem lastSelect_append_select (d L : LogLevel) (pre post : List ChainOp) :
    lastSelect d (pre ++ ChainOp.select L :: post) = lastSelect L post := by
  induction pre generalizing d with
  | nil => rfl
  | cons op pre ih => cases op <;> simp [lastSelect, ih]

/-! ## The incremental protocol of one thread -/

/-- C1: a thread `t` without pending buffer makes any sequence `ops` of `select` and
`addChunk` calls and then calls `flushChunk`.  No prefix of the sequence executes a
stream statement; the flush executes exactly one record write, its message is the
concatenation of the appended chunks in call order; afterwards neither map has an
entry for `t`. -/
theorem chain_then_flushChunk_emits_once (s : Logger) (t ts : String)
    (ops : List ChainOp) (hfresh : StdMap.find t s.m_threadLinesMap = none) :
    (∀ n, (runChain t (ops.take n) s).trace = s.trace) ∧
    records ((runChain t ops s).flushChunk ts t).trace
      = records s.trace ++
          [Record.render ⟨ts, t,
              lastSelect ((StdMap.find t s.m_threadsLevelMap).getD LogLevel.valueInit) ops,
              concatChunks (chunksOf ops)⟩ ++ "\n"] ∧
    StdMap.find t ((runChain t ops s).flushChunk ts t).m_threadLinesMap = none ∧
    StdMap.find t ((runChain t ops s).flushChunk ts t).m_threadsLevelMap = none := by
  refine ⟨fun n => runChain_trace t _ s, ?_, Logger.flushChunk_lines_self _ _ _,
    Logger.flushChunk_levels_self _ _ _⟩
  rw [Logger.records_flushChunk, runChain_trace, runChain_line, runChain_level, hfresh]
  simp

/-- C1, at a concrete input: thread `7` selects `Error`, appends `Error Log` and
`11`, and flushes, on the freshly created logger. -/
theorem chain_then_flushChunk_emits_once_witness :
    StdMap.find "7" Logger.get.m_threadLinesMap = none ∧
    records ((runChain "7" [ChainOp.select LogLevel.Error, ChainOp.append "Error Log",
        ChainOp.append "11"] Logger.get).flushChunk "12:00" "7").trace
      = [] ++ ["[12:00] [7] [ERROR] Error Log11\n"] :=
  ⟨rfl, (chain_then_flushChunk_emits_once Logger.get "7" "12:00"
    [ChainOp.select LogLevel.Error, ChainOp.append "Error Log", ChainOp.append "11"] rfl).2.1⟩

/-- C2: thread `t` makes any calls `pre`, then `select(L)`, then appends `chunks`,
then flushes with the sentinel.  The one record the flush writes carries the level
tag `logToString L`, whatever levels `pre` selected before: the last `select`
decides. -/
theorem last_select_tags_record (s : Logger) (t ts : String) (L : LogLevel)
    (pre : List ChainOp) (chunks : List String) :
    records ((runChain t (pre ++ ChainOp.select L :: chunks.map ChainOp.append) s).flushChunk
        ts t).trace
      = records s.trace ++
          ["[" ++ ts ++ "] [" ++ t ++ "] [" ++ logToString L ++ "] " ++
            ((StdMap.find t s.m_threadLinesMap).getD "" ++
              concatChunks (chunksOf pre ++ chunks)) ++ "\n"] := by
  rw [Logger.records_flushChunk, runChain_trace, runChain_line, runChain_level,
    lastSelect_append_select, lastSelect_appends, chunksOf_append]
  simp [chunksOf, chunksOf_appends, Record.render]

/-- C3: a thread `t` without entry in `m_threadsLevelMap` appends `chunks` and
flushes them with `flushChunk`.  The record is tagged with the value-initialised
level that `m_threadsLevelMap[threadID]` creates, whose token is `INFO`; the level
`Debug` that `log` and `logObj` declare as their default renders as `DEBUG`. -/
theorem unselected_flush_tagged_info (s : Logger) (t ts : String) (chunks : List String)
    (hnone : StdMap.find t s.m_threadsLevelMap = none) :
    records ((runChain t (chunks.map ChainOp.append) s).flushChunk ts t).trace
      = records s.trace ++
          ["[" ++ ts ++ "] [" ++ t ++ "] [" ++ "INFO" ++ "] " ++
            ((StdMap.find t s.m_threadLinesMap).getD "" ++ concatChunks chunks) ++ "\n"] ∧
    logToString defaultLevel = "DEBUG" := by
  refine ⟨?_, rfl⟩
  rw [Logger.records_flushChunk, runChain_trace, runChain_line, runChain_level,
    lastSelect_appends, chunksOf_appends, hnone]
  simp [Record.render, LogLevel.valueInit]
  rfl

/-- C3, at the failing input: on the fresh logger thread `1` appends `12345` and
flushes; the record is tagged `INFO`. -/
theorem unselected_flush_tagged_info_witness :
    StdMap.find "1" Logger.get.m_threadsLevelMap = none ∧
    records ((runChain "1" [ChainOp.append "12345"] Logger.get).flushChunk "12:00" "1").trace
      = ["[12:00] [1] [INFO] 12345\n"] :=
  ⟨rfl, (unselected_flush_tagged_info Logger.get "1" "12:00" ["12345"] rfl).1⟩

/-! ## The immediate path `log` -/

/-- C4: with destination `Everywhere`, a call of `log` executes one write on
`std::cout` and none on the file stream, whose state stays as it was. -/
theorem log_everywhere_console_only (s : Logger) (ts tid msg : String) (level : LogLevel)
    (hout : s.m_output = LogOutput.Everywhere) :
    (s.log ts tid msg level).trace
      = s.trace ++ [StreamOp.coutWrite (Record.render ⟨ts, tid, level, msg⟩ ++ "\n")] ∧
    fileRecords (s.log ts tid msg level).trace = fileRecords s.trace ∧
    (s.log ts tid msg level).m_file = s.m_file := by
  have hfr : ∀ (l : List StreamOp) (b : String),
      fileRecords (l ++ [StreamOp.coutWrite b]) = fileRecords l := by
    intro l b
    induction l with
    | nil => rfl
    | cons op l ih => cases op <;> simp [fileRecords, ih]
  simp [Logger.log, hout, result_eq_render, hfr]

/-- C4, at the failing input: `init("Logs.txt", Everywhere)`, `open()` with a file
that can be opened, then `log("test log", Debug)`.  The record goes to `std::cout`
and the opened file receives nothing. -/
theorem log_everywhere_console_only_witness :
    ((Logger.«open» (fun _ => true) (Logger.get.init "Logs.txt" LogOutput.Everywhere)).2.log
        "12:00" "1" "test log" LogLevel.Debug).trace
      = [StreamOp.fileOpen "Logs.txt", StreamOp.coutWrite "[12:00] [1] [DEBUG] test log\n"] ∧
    ((Logger.«open» (fun _ => true) (Logger.get.init "Logs.txt" LogOutput.Everywhere)).2.log
        "12:00" "1" "test log" LogLevel.Debug).m_file
      = { is_open := true, failed := false, content := "" } :=
  ⟨(log_everywhere_console_only
      (Logger.«open» (fun _ => true) (Logger.get.init "Logs.txt" LogOutput.Everywhere)).2
      "12:00" "1" "test log" LogLevel.Debug rfl).1,
   (log_everywhere_console_only
      (Logger.«open» (fun _ => true) (Logger.get.init "Logs.txt" LogOutput.Everywhere)).2
      "12:00" "1" "test log" LogLevel.Debug rfl).2.2⟩

/-- C7: `log(msg, L)` executes exactly one write on its sink stream (the file stream
for destination `File`, `std::cout` otherwise), and the bytes written are
`[ts] [tid] [LEVEL] msg` followed by one line terminator, `msg` unchanged.  When
the sink is the file stream, open and without error bit, the file receives exactly
these bytes; a file stream that is not open or has an error bit set stores nothing. -/
theorem log_writes_rendered_record (s : Logger) (ts tid msg : String) (L : LogLevel) :
    (s.log ts tid msg L).trace
      = s.trace ++
          [if s.m_output = LogOutput.File then
             StreamOp.fileWrite
               ("[" ++ ts ++ "] [" ++ tid ++ "] [" ++ logToString L ++ "] " ++ msg ++ "\n")
           else
             StreamOp.coutWrite
               ("[" ++ ts ++ "] [" ++ tid ++ "] [" ++ logToString L ++ "] " ++ msg ++ "\n")] ∧
    (s.m_output = LogOutput.File → s.m_file.is_open = true → s.m_file.failed = false →
      (s.log ts tid msg L).m_file.content
        = s.m_file.content ++
            ("[" ++ ts ++ "] [" ++ tid ++ "] [" ++ logToString L ++ "] " ++ msg ++ "\n")) ∧
    ((s.m_file.is_open = false ∨ s.m_file.failed = true) →
      (s.log ts tid msg L).m_file.content = s.m_file.content) := by
  have hr : Logger.result ts tid msg L
      = "[" ++ ts ++ "] [" ++ tid ++ "] [" ++ logToString L ++ "] " ++ msg := by
    rw [result_eq_render]
    rfl
  refine ⟨?_, ?_, ?_⟩
  · unfold Logger.log
    rw [hr]
    by_cases h1 : s.m_output = LogOutput.Console
    · simp [h1]
    · by_cases h2 : s.m_output = LogOutput.File
      · simp [h2]
      · simp [h1, h2]
  · intro hf ho hg
    unfold Logger.log
    rw [hr]
    simp [hf, FStream.write, ho, hg]
  · intro hbad
    unfold Logger.log
    by_cases h1 : s.m_output = LogOutput.Console
    · simp [h1]
    · by_cases h2 : s.m_output = LogOutput.File
      · by_cases hf : s.m_file.failed = true
        · simp [h2, FStream.write, hf]
        · rcases hbad with ho | hb
          · simp [h2, FStream.write, hf, ho]
          · exact absurd hb hf
      · simp [h1, h2]

/-- C7, at a concrete input: destination `File`, file opened, one `Warning` record. -/
theorem log_writes_rendered_record_witness :
    ((Logger.«open» (fun _ => true) (Logger.get.init "out.log" LogOutput.File)).2.log
        "12:00" "1" "plain" LogLevel.Warning).m_file.content
      = "" ++ ("[" ++ "12:00" ++ "] [" ++ "1" ++ "] [" ++ logToString LogLevel.Warning ++ "] "
          ++ "plain" ++ "\n") :=
  (log_writes_rendered_record
      (Logger.«open» (fun _ => true) (Logger.get.init "out.log" LogOutput.File)).2
      "12:00" "1" "plain" LogLevel.Warning).2.1 rfl rfl rfl

/-- C8: `logToString` maps the five levels to the tokens `INFO`, `DEBUG`, `WARNING`,
`ERROR`, `FATAL`; it is injective and gives `NONE` for none of them. -/
theorem logToString_tokens :
    logToString LogLevel.Info = "INFO" ∧
    logToString LogLevel.Debug = "DEBUG" ∧
    logToString LogLevel.Warning = "WARNING" ∧
    logToString LogLevel.Error = "ERROR" ∧
    logToString LogLevel.Fatal = "FATAL" ∧
    Function.Injective logToString ∧
    ∀ l : LogLevel, logToString l ≠ "NONE" := by
  refine ⟨rfl, rfl, rfl, rfl, rfl, ?_, ?_⟩
  · intro a b h
    cases a <;> cases b <;> first | rfl | exact absurd h (by decide)
  · intro l
    cases l <;> decide

/-! ## Interleaved threads -/

theorem concatChunks_append (a b : List String) :
    concatChunks (a ++ b) = concatChunks a ++ concatChunks b := by
  induction a with
  | nil => simp [concatChunks]
  | cons c a ih => simp [concatChunks, ih, String.append_assoc]

theorem runCalls_cons (c : Call) (cs : List Call) (s : Logger) :
    runCalls (c :: cs) s = runCalls cs (c.run s) := rfl

theorem runCalls_snoc (cs : List Call) (c : Call) (s : Logger) :
    runCalls (cs ++ [c]) s = c.run (runCalls cs s) := by
  simp [runCalls, List.foldl_append]

theorem runCalls_line (t : String) (cs : List Call) (acc : List String) (s : Logger)
    (h : (StdMap.find t s.m_threadLinesMap).getD "" = concatChunks acc) :
    (StdMap.find t (runCalls cs s).m_threadLinesMap).getD ""
      = concatChunks (pendingFrom t acc cs) := by
  induction cs generalizing s acc with
  | nil => simpa [runCalls, pendingFrom] using h
  | cons c cs ih =>
    obtain ⟨u, op⟩ := c
    rw [runCalls_cons]
    cases op with
    | select level =>
      simp only [pendingFrom]
      apply ih
      simpa [Call.run, Logger.select] using h
    | append chunk =>
      simp only [pendingFrom]
      apply ih
      by_cases hu : u = t
      · subst hu
        simp [Call.run, Logger.addChunk_find_self, h, concatChunks_append, concatChunks]
      · have hne : t ≠ u := fun e => hu e.symm
        simpa [Call.run, Logger.addChunk_find_ne hne, hu] using h
    | sentinel ts =>
      simp only [pendingFrom]
      apply ih
      by_cases hu : u = t
      · subst hu
        simp [Call.run, Logger.flushChunk_lines_self, concatChunks]
      · have hne : t ≠ u := fun e => hu e.symm
        simpa [Call.run, Logger.flushChunk_lines_ne hne, hu] using h

/-- C5: `A` and `B` are distinct threads, `A` starts without pending buffer, and
`pre` is any interleaving of `select`, `append` and sentinel calls.  The record
written at a sentinel of `A` that follows `pre` has as message the concatenation,
in order, of exactly the chunks `A` appended since its previous sentinel; and no
call of `A` changes the entry of `B` in `m_threadLinesMap` or `m_threadsLevelMap`.
Exchanging the two names gives the statement for `B`. -/
theorem interleaved_threads_keep_own_chunks (s : Logger) (A B ts : String)
    (pre : List Call) (hAB : A ≠ B)
    (hfresh : StdMap.find A s.m_threadLinesMap = none) :
    records (runCalls (pre ++ [⟨A, Op.sentinel ts⟩]) s).trace
      = records (runCalls pre s).trace ++
          [Record.render ⟨ts, A,
              (StdMap.find A (runCalls pre s).m_threadsLevelMap).getD LogLevel.valueInit,
              concatChunks (pendingChunks A pre)⟩ ++ "\n"] ∧
    (∀ (st : Logger) (op : Op),
      StdMap.find B (Call.run ⟨A, op⟩ st).m_threadLinesMap
        = StdMap.find B st.m_threadLinesMap ∧
      StdMap.find B (Call.run ⟨A, op⟩ st).m_threadsLevelMap
        = StdMap.find B st.m_threadsLevelMap) := by
  have hBA : B ≠ A := fun e => hAB e.symm
  constructor
  · rw [runCalls_snoc]
    simp only [Call.run]
    rw [Logger.records_flushChunk, runCalls_line A pre [] s (by simp [hfresh, concatChunks])]
    rfl
  · intro st op
    cases op with
    | select level =>
      exact ⟨rfl, Logger.select_find_ne hBA level st⟩
    | append chunk =>
      exact ⟨Logger.addChunk_find_ne hBA chunk st, rfl⟩
    | sentinel ts0 =>
      exact ⟨Logger.flushChunk_lines_ne hBA ts0 st, Logger.flushChunk_levels_ne hBA ts0 st⟩

/-- C5, at a concrete input: threads `A` and `B` interleave their appends, `B`
flushes in between, then `A` flushes: the record of `A` holds the chunks of `A`. -/
theorem interleaved_threads_keep_own_chunks_witness :
    "A" ≠ "B" ∧ StdMap.find "A" Logger.get.m_threadLinesMap = none ∧
    records (runCalls ([⟨"A", Op.append "a1"⟩, ⟨"B", Op.append "b1"⟩,
        ⟨"A", Op.append "a2"⟩, ⟨"B", Op.sentinel "12:01"⟩] ++ [⟨"A", Op.sentinel "12:02"⟩])
        Logger.get).trace
      = ["[12:01] [B] [INFO] b1\n"] ++ ["[12:02] [A] [INFO] a1a2\n"] :=
  ⟨by decide, rfl,
    (interleaved_threads_keep_own_chunks Logger.get "A" "B" "12:02"
      [⟨"A", Op.append "a1"⟩, ⟨"B", Op.append "b1"⟩, ⟨"A", Op.append "a2"⟩,
        ⟨"B", Op.sentinel "12:01"⟩] (by decide) rfl).1⟩

/-! ## The blanket `flush` -/

namespace Logger

theorem flushLoop_records (clock : Nat → String) (tid : String)
    (l : List (String × String)) (i : Nat) (s : Logger) :
    records (flushLoop clock tid i l s).trace
      = records s.trace ++
          (List.enumFrom i l).map (fun e =>
            Record.render ⟨clock e.1, tid,
              (StdMap.find e.2.1 s.m_threadsLevelMap).getD LogLevel.valueInit, e.2.2⟩
              ++ "\n") := by
  induction l generalizing i s with
  | nil => simp [flushLoop]
  | cons e l ih =>
    obtain ⟨k, text⟩ := e
    simp only [flushLoop, List.enumFrom_cons, List.map_cons]
    rw [ih]
    simp [logT, records_log, log_levels, StdMap.subscript_snd, StdMap.getD_find_subscript]

theorem flushLoop_isOpened (clock : Nat → String) (tid : String)
    (l : List (String × String)) (i : Nat) (s : Logger) :
    (flushLoop clock tid i l s).m_isOpened = s.m_isOpened := by
  induction l generalizing i s with
  | nil => rfl
  | cons e l ih =>
    obtain ⟨k, text⟩ := e
    simp only [flushLoop]
    rw [ih]
    simp [logT, log_isOpened]

theorem flush_of_opened (clock : Nat → String) (tid : String) (s : Logger)
    (hopen : s.m_isOpened = true) :
    s.flush clock tid
      = if ({ flushLoop clock tid 0 s.m_threadLinesMap s with
              m_threadLinesMap := [], m_threadsLevelMap := [] } : Logger).usesFile then
          { flushLoop clock tid 0 s.m_threadLinesMap s with
            m_threadLinesMap := [], m_threadsLevelMap := [],
            trace := (flushLoop clock tid 0 s.m_threadLinesMap s).trace
              ++ [StreamOp.fileFlush] }
        else
          { flushLoop clock tid 0 s.m_threadLinesMap s with
            m_threadLinesMap := [], m_threadsLevelMap := [] } := by
  unfold flush
  rw [hopen]
  simp [StdMap.clear, FStream.flush]

theorem flush_lines (clock : Nat → String) (tid : String) (s : Logger)
    (hopen : s.m_isOpened = true) : (s.flush clock tid).m_threadLinesMap = [] := by
  rw [flush_of_opened clock tid s hopen]
  split <;> rfl

theorem flush_levels (clock : Nat → String) (tid : String) (s : Logger)
    (hopen : s.m_isOpened = true) : (s.flush clock tid).m_threadsLevelMap = [] := by
  rw [flush_of_opened clock tid s hopen]
  split <;> rfl

theorem flush_isOpened (clock : Nat → String) (tid : String) (s : Logger) :
    (s.flush clock tid).m_isOpened = s.m_isOpened := by
  by_cases hopen : s.m_isOpened = true
  · rw [flush_of_opened clock tid s hopen]
    split <;> simp [flushLoop_isOpened]
  · simp [flush, hopen]

theorem flush_records (clock : Nat → String) (tid : String) (s : Logger)
    (hopen : s.m_isOpened = true) :
    records (s.flush clock tid).trace
      = records s.trace ++
          (List.enumFrom 0 s.m_threadLinesMap).map (fun e =>
            Record.render ⟨clock e.1, tid,
              (StdMap.find e.2.1 s.m_threadsLevelMap).getD LogLevel.valueInit, e.2.2⟩
              ++ "\n") := by
  rw [flush_of_opened clock tid s hopen]
  split <;> simp [records_append, records, flushLoop_records]

end Logger

/-- C6: on an opened logger (destination `Everywhere` or any other), `flush()`
writes exactly one record per entry of `m_threadLinesMap`, in map order, each with
the text of the entry as message, and leaves both maps empty; a second `flush()`
right after writes no record and leaves both maps empty.  The level of a record is
what `m_threadsLevelMap[elem.first]` yields: the entry of the thread when it has
one, and otherwise the value-initialised level, so that the record of a thread that
never selected a level is tagged `INFO`, while the default level `Debug` that `log`
and `logObj` declare renders as `DEBUG`. -/
theorem flush_tags_unselected_entry_info (s : Logger) (clock clock2 : Nat → String)
    (tid tid2 : String) (hopen : s.m_isOpened = true) :
    records (s.flush clock tid).trace
      = records s.trace ++
          (List.enumFrom 0 s.m_threadLinesMap).map (fun e =>
            Record.render ⟨clock e.1, tid,
              (StdMap.find e.2.1 s.m_threadsLevelMap).getD LogLevel.valueInit, e.2.2⟩
              ++ "\n") ∧
    (s.flush clock tid).m_threadLinesMap = [] ∧
    (s.flush clock tid).m_threadsLevelMap = [] ∧
    records ((s.flush clock tid).flush clock2 tid2).trace = records (s.flush clock tid).trace ∧
    ((s.flush clock tid).flush clock2 tid2).m_threadLinesMap = [] ∧
    ((s.flush clock tid).flush clock2 tid2).m_threadsLevelMap = [] ∧
    (∀ k text : String, s.m_threadLinesMap = [(k, text)] →
      StdMap.find k s.m_threadsLevelMap = none →
      records (s.flush clock tid).trace
        = records s.trace ++
            ["[" ++ clock 0 ++ "] [" ++ tid ++ "] [" ++ "INFO" ++ "] " ++ text ++ "\n"]) ∧
    logToString defaultLevel = "DEBUG" := by
  have hopen2 : (s.flush clock tid).m_isOpened = true := by
    rw [Logger.flush_isOpened, hopen]
  refine ⟨Logger.flush_records clock tid s hopen, Logger.flush_lines clock tid s hopen,
    Logger.flush_levels clock tid s hopen, ?_, Logger.flush_lines _ _ _ hopen2,
    Logger.flush_levels _ _ _ hopen2, ?_, rfl⟩
  · rw [Logger.flush_records clock2 tid2 _ hopen2, Logger.flush_lines clock tid s hopen]
    simp
  · intro k text hk hnone
    rw [Logger.flush_records clock tid s hopen, hk]
    simp only [List.enumFrom_cons, List.enumFrom_nil, List.map_cons, List.map_nil, hnone,
      Option.getD_none]
    rfl

/-- C6, at the failing input: destination `Everywhere`, the logger opened, thread `3`
has selected `Error` and appended `boom` and `!`, thread `2` has appended `x` without
selecting a level; the main thread `1` calls `flush()`.  The record of thread `2`
is tagged `INFO`. -/
theorem flush_tags_unselected_entry_info_witness :
    ((Logger.«open» (fun _ => true) Logger.get).2.addChunk "2" "x").m_isOpened = true ∧
    records (((runChain "3" [ChainOp.select LogLevel.Error, ChainOp.append "boom",
        ChainOp.append "!"]
        ((Logger.«open» (fun _ => true) Logger.get).2.addChunk "2" "x")).flush
          (fun _ => "12:00") "1").trace)
      = [] ++ ["[12:00] [1] [INFO] x\n", "[12:00] [1] [ERROR] boom!\n"] :=
  ⟨rfl, (flush_tags_unselected_entry_info
      (runChain "3" [ChainOp.select LogLevel.Error, ChainOp.append "boom", ChainOp.append "!"]
        ((Logger.«open» (fun _ => true) Logger.get).2.addChunk "2" "x"))
      (fun _ => "12:00") (fun _ => "12:01") "1" "1" rfl).1⟩

/-! ## `open()` -/

namespace Logger

theorem consistent_get : Logger.get.Consistent := by
  simp [Consistent, Logger.get, FStream.init]

theorem consistent_init (fileName : String) (output : LogOutput) (s : Logger)
    (h : s.Consistent) : (s.init fileName output).Consistent := h

theorem consistent_open (canOpen : String → Bool) (s : Logger) (h : s.Consistent) :
    (Logger.«open» canOpen s).2.Consistent := by
  rcases s with ⟨fn, ⟨io, fl, ct⟩, out, lv, ln, o, tr⟩
  cases o <;> cases out <;> cases io <;> cases hc : canOpen fn <;>
    simp_all [Logger.«open», usesFile, FStream.«open», Consistent]

theorem consistent_close (s : Logger) (h : s.Consistent) : s.close.Consistent := by
  rcases s with ⟨fn, ⟨io, fl, ct⟩, out, lv, ln, o, tr⟩
  cases o <;> cases out <;> cases io <;>
    simp_all [Logger.close, usesFile, FStream.close, Consistent]

theorem log_file_is_open (ts tid msg : String) (level : LogLevel) (s : Logger) :
    (s.log ts tid msg level).m_file.is_open = s.m_file.is_open := by
  unfold log
  by_cases h1 : s.m_output = LogOutput.Console
  · simp [h1]
  · by_cases h2 : s.m_output = LogOutput.File
    · have hw : ∀ (b : String) (f : FStream), (f.write b).is_open = f.is_open := by
        intro b f
        unfold FStream.write
        by_cases hf : f.failed = true
        · simp [hf]
        · by_cases ho : f.is_open = true <;> simp [hf, ho]
      simp [h2, hw]
    · simp [h1, h2]

theorem consistent_log (ts tid msg : String) (level : LogLevel) (s : Logger)
    (h : s.Consistent) : (s.log ts tid msg level).Consistent := by
  unfold Consistent
  rw [log_file_is_open, log_isOpened]
  exact h

theorem consistent_addChunk (tid chunk : String) (s : Logger) (h : s.Consistent) :
    (s.addChunk tid chunk).Consistent := h

theorem consistent_select (tid : String) (level : LogLevel) (s : Logger)
    (h : s.Consistent) : (s.select tid level).Consistent := h

theorem consistent_flushChunk (ts tid : String) (s : Logger) (h : s.Consistent) :
    (s.flushChunk ts tid).Consistent := by
  unfold Consistent flushChunk
  simp only [logT]
  rw [log_file_is_open, log_isOpened]
  exact h

theorem flushLoop_file_is_open (clock : Nat → String) (tid : String)
    (l : List (String × String)) (i : Nat) (s : Logger) :
    (flushLoop clock tid i l s).m_file.is_open = s.m_file.is_open := by
  induction l generalizing i s with
  | nil => rfl
  | cons e l ih =>
    obtain ⟨k, text⟩ := e
    simp only [flushLoop]
    rw [ih]
    simp [logT, log_file_is_open]

theorem consistent_flush (clock : Nat → String) (tid : String) (s : Logger)
    (h : s.Consistent) : (s.flush clock tid).Consistent := by
  unfold Consistent
  rw [flush_isOpened]
  by_cases hopen : s.m_isOpened = true
  · intro _
    exact hopen
  · have hs : s.flush clock tid = s := by simp [flush, hopen]
    rw [hs]
    exact h

theorem fileOpens_snoc (l : List StreamOp) (name : String) :
    fileOpens (l ++ [StreamOp.fileOpen name]) = fileOpens l + 1 := by
  induction l with
  | nil => rfl
  | cons op l ih => cases op <;> simp [fileOpens, ih]

end Logger

/-- C9: on a logger whose stream holds no file unless it is marked open, `open()`
throws exactly when the logger is not open yet, the destination is `File` or
`Everywhere`, and the system cannot open the file.  When it throws the logger is
left not open; in every other case it returns normally and the logger is marked
open; with destination `Console` no stream statement is executed. -/
theorem open_throws_iff (canOpen : String → Bool) (s : Logger) (hcons : s.Consistent) :
    ((Logger.«open» canOpen s).1 = Except.error "Couldn't open a log file!" ↔
      (s.m_isOpened = false ∧
        (s.m_output = LogOutput.File ∨ s.m_output = LogOutput.Everywhere) ∧
        canOpen s.m_fileName = false)) ∧
    ((Logger.«open» canOpen s).1 = Except.error "Couldn't open a log file!" →
      (Logger.«open» canOpen s).2.m_isOpened = false) ∧
    ((Logger.«open» canOpen s).1 ≠ Except.error "Couldn't open a log file!" →
      (Logger.«open» canOpen s).1 = Except.ok () ∧
      (Logger.«open» canOpen s).2.m_isOpened = true) ∧
    (s.m_output = LogOutput.Console →
      (Logger.«open» canOpen s).2.trace = s.trace ∧
      (Logger.«open» canOpen s).2.m_file = s.m_file) := by
  rcases s with ⟨fn, ⟨io, fl, ct⟩, out, lv, ln, o, tr⟩
  cases o <;> cases out <;> cases io <;> cases hc : canOpen fn <;>
    simp_all [Logger.«open», Logger.usesFile, FStream.«open», Logger.Consistent]

/-- C9, at concrete inputs: on the fresh logger (destination `Everywhere`) `open()`
throws when the system refuses the file. -/
theorem open_throws_iff_witness :
    Logger.get.Consistent ∧
    (Logger.«open» (fun _ => false) Logger.get).1
      = Except.error "Couldn't open a log file!" ∧
    (Logger.«open» (fun _ => false) Logger.get).2.m_isOpened = false :=
  ⟨Logger.consistent_get,
   ((open_throws_iff (fun _ => false) Logger.get Logger.consistent_get).1).2
     ⟨rfl, Or.inr rfl, rfl⟩,
   (open_throws_iff (fun _ => false) Logger.get Logger.consistent_get).2.1 rfl⟩

/-- C10: `open()` on a logger that is already open returns at once: nothing of the
state changes and no stream statement is executed.  Hence, from a logger that is
not open and whose destination includes the file, a first `open()` that returns
normally followed by a second `open()` makes exactly one `open` call on the file
stream. -/
theorem open_twice_opens_once (canOpen canOpen2 : String → Bool) (s : Logger)
    (hclosed : s.m_isOpened = false)
    (hfile : s.m_output = LogOutput.File ∨ s.m_output = LogOutput.Everywhere)
    (hok : (Logger.«open» canOpen s).1 = Except.ok ()) :
    (∀ s0 : Logger, s0.m_isOpened = true → Logger.«open» canOpen2 s0 = (Except.ok (), s0)) ∧
    Logger.«open» canOpen2 (Logger.«open» canOpen s).2
      = (Except.ok (), (Logger.«open» canOpen s).2) ∧
    fileOpens (Logger.«open» canOpen s).2.trace = fileOpens s.trace + 1 ∧
    fileOpens (Logger.«open» canOpen2 (Logger.«open» canOpen s).2).2.trace
      = fileOpens s.trace + 1 := by
  have hidem : ∀ s0 : Logger, s0.m_isOpened = true →
      Logger.«open» canOpen2 s0 = (Except.ok (), s0) := by
    intro s0 h0
    simp [Logger.«open», h0]
  have hopened : (Logger.«open» canOpen s).2.m_isOpened = true := by
    rcases s with ⟨fn, ⟨io, fl, ct⟩, out, lv, ln, o, tr⟩
    cases o <;> cases out <;> cases io <;> cases hc : canOpen fn <;>
      simp_all [Logger.«open», Logger.usesFile, FStream.«open»]
  have hone : fileOpens (Logger.«open» canOpen s).2.trace = fileOpens s.trace + 1 := by
    have huse : s.usesFile = true := by
      rcases hfile with h | h <;> simp [Logger.usesFile, h]
    unfold Logger.«open»
    rw [hclosed]
    simp only [huse]
    simp only [Bool.false_eq_true, if_false, if_true]
    split <;> exact Logger.fileOpens_snoc _ _
  refine ⟨hidem, hidem _ hopened, hone, ?_⟩
  rw [hidem _ hopened]
  exact hone

/-- C10, at a concrete input: `init("Logs.txt", Everywhere)`, then `open()` twice
with a file the system can open. -/
theorem open_twice_opens_once_witness :
    (Logger.«open» (fun _ => true)
        (Logger.«open» (fun _ => true)
          (Logger.get.init "Logs.txt" LogOutput.Everywhere)).2).2.trace
      = [StreamOp.fileOpen "Logs.txt"] ∧
    fileOpens (Logger.«open» (fun _ => true)
        (Logger.«open» (fun _ => true)
          (Logger.get.init "Logs.txt" LogOutput.Everywhere)).2).2.trace
      = fileOpens (Logger.get.init "Logs.txt" LogOutput.Everywhere).trace + 1 :=
  ⟨rfl, (open_twice_opens_once (fun _ => true) (fun _ => true)
      (Logger.get.init "Logs.txt" LogOutput.Everywhere) rfl (Or.inr rfl) rfl).2.2.2⟩

/-! ## `close()` and the string forms of the chain operator -/

/-- C11: `close()` never clears `m_isOpened`.  On an opened logger whose destination
includes the file, the second of two successive `close()` calls finds the logger
still marked open and calls `m_file.close()` again: two `close` calls are made on
the file stream, and the second one, made on a stream without file, sets its error
bit. -/
theorem close_twice_calls_file_close_twice (s : Logger) (hopen : s.m_isOpened = true)
    (hfile : s.m_output = LogOutput.File ∨ s.m_output = LogOutput.Everywhere) :
    s.close.m_isOpened = true ∧
    s.close.close.trace = s.trace ++ [StreamOp.fileClose, StreamOp.fileClose] ∧
    s.close.close.m_file.failed = true ∧
    s.close.close.m_file.is_open = false := by
  rcases s with ⟨fn, ⟨io, fl, ct⟩, out, lv, ln, o, tr⟩
  cases io <;> rcases hfile with h | h <;>
    simp_all [Logger.close, Logger.usesFile, FStream.close]

/-- C11, at the failing input: `init("Logs.txt", File)`, `open()` with a file that
can be opened, then `close()` twice. -/
theorem close_twice_calls_file_close_twice_witness :
    (Logger.«open» (fun _ => true) (Logger.get.init "Logs.txt" LogOutput.File)).2.close.close.trace
      = [StreamOp.fileOpen "Logs.txt"] ++ [StreamOp.fileClose, StreamOp.fileClose] ∧
    (Logger.«open» (fun _ => true)
        (Logger.get.init "Logs.txt" LogOutput.File)).2.close.m_file.failed = false ∧
    (Logger.«open» (fun _ => true)
        (Logger.get.init "Logs.txt" LogOutput.File)).2.close.close.m_file.failed = true :=
  ⟨(close_twice_calls_file_close_twice
      (Logger.«open» (fun _ => true) (Logger.get.init "Logs.txt" LogOutput.File)).2
      rfl (Or.inl rfl)).2.1,
   rfl,
   (close_twice_calls_file_close_twice
      (Logger.«open» (fun _ => true) (Logger.get.init "Logs.txt" LogOutput.File)).2
      rfl (Or.inl rfl)).2.2.1⟩

/-- C13: on a logger that was never opened (`m_isOpened` is false), `flush()` and
`close()` return the state as it is: no record, no stream statement, the pending
entries of both maps untouched. -/
theorem flush_close_before_open_noop (s : Logger) (clock : Nat → String) (tid : String)
    (hnever : s.m_isOpened = false) :
    s.flush clock tid = s ∧ s.close = s := by
  simp [Logger.flush, Logger.close, hnever]

/-- C13, at a concrete input: the fresh logger with a pending chunk of thread `1`. -/
theorem flush_close_before_open_noop_witness :
    (Logger.get.addChunk "1" "12345").m_isOpened = false ∧
    (Logger.get.addChunk "1" "12345").flush (fun _ => "12:00") "1"
      = Logger.get.addChunk "1" "12345" ∧
    (Logger.get.addChunk "1" "12345").close = Logger.get.addChunk "1" "12345" :=
  ⟨rfl, flush_close_before_open_noop (Logger.get.addChunk "1" "12345")
    (fun _ => "12:00") "1" rfl⟩

/-- C14: `close()` leaves `m_threadLinesMap` and `m_threadsLevelMap` as they were
and writes no record (the only stream statement it can execute is `m_file.close()`,
which leaves the bytes of the file alone): pending buffers are neither flushed nor
cleared. -/
theorem close_keeps_pending_buffers (s : Logger) :
    s.close.m_threadLinesMap = s.m_threadLinesMap ∧
    s.close.m_threadsLevelMap = s.m_threadsLevelMap ∧
    records s.close.trace = records s.trace ∧
    s.close.m_file.content = s.m_file.content := by
  rcases s with ⟨fn, ⟨io, fl, ct⟩, out, lv, ln, o, tr⟩
  cases o <;> cases out <;> cases io <;>
    simp [Logger.close, Logger.usesFile, FStream.close, records_append, records]

/-- C15: the string form of the chain operator is `flushChunk()` when the chunk is
the sentinel `"\n"` and `addChunk(chunk)` for every other string.  With the sentinel
nothing is appended (the thread has no entry afterwards); with any other chunk no
stream statement is executed and the chunk is appended to the buffer. -/
theorem shl_flushes_on_sentinel_only (s : Logger) (ts tid chunk : String) :
    IkarusLogger.endl = "\n" ∧
    (chunk = IkarusLogger.endl →
      s.shl ts tid chunk = s.flushChunk ts tid ∧
      StdMap.find tid (s.shl ts tid chunk).m_threadLinesMap = none) ∧
    (chunk ≠ IkarusLogger.endl →
      s.shl ts tid chunk = s.addChunk tid chunk ∧
      (s.shl ts tid chunk).trace = s.trace ∧
      StdMap.find tid (s.shl ts tid chunk).m_threadLinesMap
        = some ((StdMap.find tid s.m_threadLinesMap).getD "" ++ chunk)) := by
  refine ⟨rfl, ?_, ?_⟩
  · intro h
    have hs : s.shl ts tid chunk = s.flushChunk ts tid := by simp [Logger.shl, h]
    rw [hs]
    exact ⟨rfl, Logger.flushChunk_lines_self ts tid s⟩
  · intro h
    have hs : s.shl ts tid chunk = s.addChunk tid chunk := by simp [Logger.shl, h]
    rw [hs]
    exact ⟨rfl, rfl, Logger.addChunk_find_self tid chunk s⟩

/-- C15, at concrete inputs: after the chunk `ab` thread `1` passes the sentinel,
and, separately, the chunk `a\nb` that only contains a line feed. -/
theorem shl_flushes_on_sentinel_only_witness :
    records ((Logger.get.shl "12:00" "1" "ab").shl "12:01" "1" "\n").trace
      = ["[12:01] [1] [INFO] ab\n"] ∧
    StdMap.find "1" (Logger.get.shl "12:00" "1" "a\nb").m_threadLinesMap = some "a\nb" :=
  ⟨by
    rw [((shl_flushes_on_sentinel_only (Logger.get.shl "12:00" "1" "ab") "12:01" "1"
      "\n").2.1 rfl).1]
    decide,
   ((shl_flushes_on_sentinel_only Logger.get "12:00" "1" "a\nb").2.2 (by decide)).2.2⟩

/-- C16: a thread `t` without pending buffer evaluates `logger << m << endl` with a
string `m` other than the sentinel.  The first step writes nothing, the second
writes exactly one record, and the message of that record is `m`. -/
theorem shl_round_trip (s : Logger) (t ts1 ts2 m : String)
    (hm : m ≠ IkarusLogger.endl)
    (hfresh : StdMap.find t s.m_threadLinesMap = none) :
    (s.shl ts1 t m).trace = s.trace ∧
    records ((s.shl ts1 t m).shl ts2 t IkarusLogger.endl).trace
      = records s.trace ++
          [Record.render ⟨ts2, t,
              (StdMap.find t s.m_threadsLevelMap).getD LogLevel.valueInit, m⟩ ++ "\n"] := by
  have h1 : s.shl ts1 t m = s.addChunk t m := by simp [Logger.shl, hm]
  have h2 : (s.addChunk t m).shl ts2 t IkarusLogger.endl = (s.addChunk t m).flushChunk ts2 t := by
    simp [Logger.shl]
  rw [h1, h2, Logger.records_flushChunk, Logger.addChunk_find_self, hfresh]
  refine ⟨rfl, ?_⟩
  simp [Logger.addChunk]

/-- C16, at a concrete input: the message `a\nb` contains a line feed. -/
theorem shl_round_trip_witness :
    "a\nb" ≠ IkarusLogger.endl ∧ StdMap.find "1" Logger.get.m_threadLinesMap = none ∧
    records ((Logger.get.shl "12:00" "1" "a\nb").shl "12:01" "1" IkarusLogger.endl).trace
      = [] ++ ["[12:01] [1] [INFO] a\nb\n"] :=
  ⟨by decide, rfl,
    (shl_round_trip Logger.get "1" "12:00" "12:01" "a\nb" (by decide) rfl).2⟩

/-- C18: the template form of the chain operator is `addChunk` of the rendering of
its argument, whatever the rendering is: no stream statement is executed, the
level map is left alone, and the rendering is appended to the buffer of the thread,
also when it equals the sentinel `"\n"`. -/
theorem shlT_always_appends (s : Logger) (tid rendered : String) :
    s.shlT tid rendered = s.addChunk tid rendered ∧
    (s.shlT tid rendered).trace = s.trace ∧
    (s.shlT tid rendered).m_threadsLevelMap = s.m_threadsLevelMap ∧
    StdMap.find tid (s.shlT tid rendered).m_threadLinesMap
      = some ((StdMap.find tid s.m_threadLinesMap).getD "" ++ rendered) ∧
    StdMap.find tid (s.shlT tid IkarusLogger.endl).m_threadLinesMap
      = some ((StdMap.find tid s.m_threadLinesMap).getD "" ++ "\n") :=
  ⟨rfl, rfl, rfl, Logger.addChunk_find_self tid rendered s,
    Logger.addChunk_find_self tid IkarusLogger.endl s⟩

/-! ## The life cycle: what reaches the file, and the flag `m_isOpened` -/

namespace FStream

theorem write_of_closed (bytes : String) (f : FStream) (h : f.is_open = false) :
    (f.write bytes).content = f.content ∧ (f.write bytes).is_open = false := by
  unfold write
  by_cases hf : f.failed = true
  · simp [hf, h]
  · simp [hf, h]

end FStream

namespace Logger

theorem log_of_closed (ts tid msg : String) (level : LogLevel) (s : Logger)
    (h : s.m_file.is_open = false) :
    (s.log ts tid msg level).m_file.content = s.m_file.content ∧
    (s.log ts tid msg level).m_file.is_open = false := by
  unfold log
  by_cases h1 : s.m_output = LogOutput.Console
  · simp [h1, h]
  · by_cases h2 : s.m_output = LogOutput.File
    · simp [h2, FStream.write_of_closed _ _ h]
    · simp [h1, h2, h]

theorem flushLoop_of_closed (clock : Nat → String) (tid : String)
    (l : List (String × String)) (i : Nat) (s : Logger) (h : s.m_file.is_open = false) :
    (flushLoop clock tid i l s).m_file.content = s.m_file.content ∧
    (flushLoop clock tid i l s).m_file.is_open = false := by
  induction l generalizing i s with
  | nil => exact ⟨rfl, h⟩
  | cons e l ih =>
    obtain ⟨k, text⟩ := e
    simp only [flushLoop]
    have hl := log_of_closed (clock i) tid text
      (StdMap.subscript k LogLevel.valueInit s.m_threadsLevelMap).2
      { s with m_threadsLevelMap :=
          (StdMap.subscript k LogLevel.valueInit s.m_threadsLevelMap).1 } h
    have hr := ih (i + 1) _ hl.2
    exact ⟨hr.1.trans hl.1, hr.2⟩

theorem flush_of_closed (clock : Nat → String) (tid : String) (s : Logger)
    (h : s.m_file.is_open = false) :
    (s.flush clock tid).m_file.content = s.m_file.content ∧
    (s.flush clock tid).m_file.is_open = false := by
  by_cases hopen : s.m_isOpened = true
  · rw [flush_of_opened clock tid s hopen]
    have hl := flushLoop_of_closed clock tid s.m_threadLinesMap 0 s h
    split <;> exact hl
  · have hs : s.flush clock tid = s := by simp [flush, hopen]
    rw [hs]
    exact ⟨rfl, h⟩

theorem flushChunk_of_closed (ts tid : String) (s : Logger)
    (h : s.m_file.is_open = false) :
    (s.flushChunk ts tid).m_file.content = s.m_file.content ∧
    (s.flushChunk ts tid).m_file.is_open = false := by
  unfold flushChunk
  simp only [logT]
  exact log_of_closed ts tid _ _
    { s with m_threadLinesMap := (StdMap.subscript tid "" s.m_threadLinesMap).1,
             m_threadsLevelMap :=
               (StdMap.subscript tid LogLevel.valueInit s.m_threadsLevelMap).1 } h

theorem flushChunk_isOpened (ts tid : String) (s : Logger) :
    (s.flushChunk ts tid).m_isOpened = s.m_isOpened := by
  unfold flushChunk
  simp only [logT]
  rw [log_isOpened]

theorem close_isOpened (s : Logger) : s.close.m_isOpened = s.m_isOpened := by
  rcases s with ⟨fn, ⟨io, fl, ct⟩, out, lv, ln, o, tr⟩
  cases o <;> cases out <;> simp [close, usesFile]

theorem close_of_closed (s : Logger) (h : s.m_file.is_open = false) :
    s.close.m_file.content = s.m_file.content ∧ s.close.m_file.is_open = false := by
  rcases s with ⟨fn, ⟨io, fl, ct⟩, out, lv, ln, o, tr⟩
  cases o <;> cases out <;> simp_all [close, usesFile, FStream.close]

theorem open_of_opened (canOpen : String → Bool) (s : Logger) (h : s.m_isOpened = true) :
    Logger.«open» canOpen s = (Except.ok (), s) := by
  simp [Logger.«open», h]

theorem open_refused_of_closed (s : Logger) (h : s.m_file.is_open = false) :
    (Logger.«open» (fun _ => false) s).2.m_file.content = s.m_file.content ∧
    (Logger.«open» (fun _ => false) s).2.m_file.is_open = false := by
  rcases s with ⟨fn, ⟨io, fl, ct⟩, out, lv, ln, o, tr⟩
  cases o <;> cases out <;> simp_all [Logger.«open», usesFile, FStream.«open»]

theorem open_isOpened_mono (canOpen : String → Bool) (s : Logger)
    (h : s.m_isOpened = true) : (Logger.«open» canOpen s).2.m_isOpened = true := by
  rw [open_of_opened canOpen s h]
  exact h

end Logger

theorem api_isOpened_mono (c : Api) (s : Logger) (h : s.m_isOpened = true) :
    (c.run s).m_isOpened = true := by
  cases c with
  | init fileName output => exact h
  | «open» ok => exact Logger.open_isOpened_mono _ s h
  | close => simpa [Api.run, Logger.close_isOpened] using h
  | flush clock tid => simpa [Api.run, Logger.flush_isOpened] using h
  | log ts tid msg level => simpa [Api.run, Logger.log_isOpened] using h
  | select tid level => exact h
  | append tid chunk => exact h
  | sentinel ts tid => simpa [Api.run, Logger.flushChunk_isOpened] using h

theorem runApi_cons (c : Api) (cs : List Api) (s : Logger) :
    runApi (c :: cs) s = runApi cs (c.run s) := rfl

theorem runApi_isOpened_mono (cs : List Api) (s : Logger) (h : s.m_isOpened = true) :
    (runApi cs s).m_isOpened = true := by
  induction cs generalizing s with
  | nil => exact h
  | cons c cs ih =>
    rw [runApi_cons]
    exact ih _ (api_isOpened_mono c s h)

/-- While the stream holds no file, a call stores nothing in the file and leaves
the stream without file, unless it is an `open()` that the system grants on a
logger not yet marked open. -/
theorem api_of_closed (c : Api) (s : Logger) (h : s.m_file.is_open = false)
    (hc : c ≠ Api.«open» true ∨ s.m_isOpened = true) :
    (c.run s).m_file.content = s.m_file.content ∧ (c.run s).m_file.is_open = false := by
  cases c with
  | init fileName output => exact ⟨rfl, h⟩
  | «open» ok =>
    by_cases ho : s.m_isOpened = true
    · simp only [Api.run]
      rw [Logger.open_of_opened _ s ho]
      exact ⟨rfl, h⟩
    · cases ok with
      | false => exact Logger.open_refused_of_closed s h
      | true =>
        rcases hc with hc | hc
        · exact absurd rfl hc
        · exact absurd hc ho
  | close => exact Logger.close_of_closed s h
  | flush clock tid => exact Logger.flush_of_closed clock tid s h
  | log ts tid msg level => exact Logger.log_of_closed ts tid msg level s h
  | select tid level => exact ⟨rfl, h⟩
  | append tid chunk => exact ⟨rfl, h⟩
  | sentinel ts tid => exact Logger.flushChunk_of_closed ts tid s h

theorem runApi_before_open (cs : List Api) (s : Logger) (h : s.m_file.is_open = false)
    (hcs : ∀ c ∈ cs, c ≠ Api.«open» true) :
    (runApi cs s).m_file.content = s.m_file.content ∧
    (runApi cs s).m_file.is_open = false := by
  induction cs generalizing s with
  | nil => exact ⟨rfl, h⟩
  | cons c cs ih =>
    rw [runApi_cons]
    have h1 := api_of_closed c s h (Or.inl (hcs c (List.mem_cons_self c cs)))
    have h2 := ih (c.run s) h1.2 (fun d hd => hcs d (List.mem_cons_of_mem c hd))
    exact ⟨h2.1.trans h1.1, h2.2⟩

theorem runApi_after_close (cs : List Api) (s : Logger) (h : s.m_file.is_open = false)
    (hopen : s.m_isOpened = true) :
    (runApi cs s).m_file.content = s.m_file.content ∧
    (runApi cs s).m_file.is_open = false := by
  induction cs generalizing s with
  | nil => exact ⟨rfl, h⟩
  | cons c cs ih =>
    rw [runApi_cons]
    have h1 := api_of_closed c s h (Or.inr hopen)
    have h2 := ih (c.run s) h1.2 (api_isOpened_mono c s hopen)
    exact ⟨h2.1.trans h1.1, h2.2⟩

namespace Logger

theorem close_lines (s : Logger) : s.close.m_threadLinesMap = s.m_threadLinesMap := by
  rcases s with ⟨fn, ⟨io, fl, ct⟩, out, lv, ln, o, tr⟩
  cases o <;> cases out <;> simp [close, usesFile]

theorem close_levels (s : Logger) : s.close.m_threadsLevelMap = s.m_threadsLevelMap := by
  rcases s with ⟨fn, ⟨io, fl, ct⟩, out, lv, ln, o, tr⟩
  cases o <;> cases out <;> simp [close, usesFile]

theorem records_close (s : Logger) : records s.close.trace = records s.trace := by
  rcases s with ⟨fn, ⟨io, fl, ct⟩, out, lv, ln, o, tr⟩
  cases o <;> cases out <;> simp [close, usesFile, records_append, records]

theorem close_closes (s : Logger) (hopen : s.m_isOpened = true)
    (hfile : s.m_output = LogOutput.File ∨ s.m_output = LogOutput.Everywhere) :
    s.close.m_file.is_open = false ∧ s.close.m_file.content = s.m_file.content := by
  rcases s with ⟨fn, ⟨io, fl, ct⟩, out, lv, ln, o, tr⟩
  cases io <;> rcases hfile with h | h <;>
    simp_all [close, usesFile, FStream.close]

end Logger

/-- C12: the file receives no record before an `open()` has succeeded and none
after `close()` has run.  (1) From a state whose stream holds no file, such as the
fresh logger, any sequence of member calls in which the system grants no `open()`
leaves the bytes of the file as they are and the stream without file.  (2) Once
`close()` has run on an opened logger whose destination includes the file, any
further sequence of member calls, `open()` included, leaves the bytes of the file
as they were at the `close()`.  The write statement of `log` is executed in both
phases, but a stream without file stores nothing. -/
theorem file_unwritten_outside_open_close (pre post : List Api) (s0 s : Logger) :
    (s0.m_file.is_open = false → (∀ c ∈ pre, c ≠ Api.«open» true) →
      (runApi pre s0).m_file.content = s0.m_file.content ∧
      (runApi pre s0).m_file.is_open = false) ∧
    (s.m_isOpened = true →
      (s.m_output = LogOutput.File ∨ s.m_output = LogOutput.Everywhere) →
      (runApi post s.close).m_file.content = s.m_file.content ∧
      (runApi post s.close).m_file.is_open = false) := by
  constructor
  · intro h hpre
    exact runApi_before_open pre s0 h hpre
  · intro hopen hfile
    have hc := Logger.close_closes s hopen hfile
    have hr := runApi_after_close post s.close hc.1
      (by rw [Logger.close_isOpened]; exact hopen)
    exact ⟨hr.1.trans hc.2, hr.2⟩

/-- C12, at concrete inputs, destination `File`: calls before the first granted
`open()` leave the file empty; after `open()` one record is stored; after
`close()` further calls, a granted `open()` among them, store nothing more. -/
theorem file_unwritten_outside_open_close_witness :
    (runApi [Api.init "out.log" LogOutput.File, Api.log "12:00" "1" "early" LogLevel.Info,
        Api.«open» false, Api.close, Api.append "1" "x", Api.sentinel "12:01" "1"]
        Logger.get).m_file.content = "" ∧
    (runApi [Api.init "out.log" LogOutput.File, Api.«open» true,
        Api.log "12:00" "1" "plain" LogLevel.Info] Logger.get).m_file.content
      = "[12:00] [1] [INFO] plain\n" ∧
    (runApi [Api.log "12:02" "1" "late" LogLevel.Info, Api.«open» true,
        Api.log "12:03" "1" "later" LogLevel.Info]
        (runApi [Api.init "out.log" LogOutput.File, Api.«open» true,
          Api.log "12:00" "1" "plain" LogLevel.Info] Logger.get).close).m_file.content
      = "[12:00] [1] [INFO] plain\n" :=
  ⟨((file_unwritten_outside_open_close
      [Api.init "out.log" LogOutput.File, Api.log "12:00" "1" "early" LogLevel.Info,
        Api.«open» false, Api.close, Api.append "1" "x", Api.sentinel "12:01" "1"] []
      Logger.get Logger.get).1 rfl (by simp)).1,
   by decide,
   ((file_unwritten_outside_open_close []
      [Api.log "12:02" "1" "late" LogLevel.Info, Api.«open» true,
        Api.log "12:03" "1" "later" LogLevel.Info] Logger.get
      (runApi [Api.init "out.log" LogOutput.File, Api.«open» true,
        Api.log "12:00" "1" "plain" LogLevel.Info] Logger.get)).2 rfl (Or.inl rfl)).1⟩

/-- C19: every record the blanket `flush()` writes carries the identity `B` of the
thread that calls `flush()`.  For a buffer `text` owned by a thread `A` other than
`B`, the record has thread-id field `B`, not `A`, and message `text`; the bytes
written are the same whatever identity owns the buffer: the key of the entry is not
rendered. -/
theorem flush_records_carry_caller (s : Logger) (clock : Nat → String) (A B : String)
    (hopen : s.m_isOpened = true) (hAB : A ≠ B) :
    records (s.flush clock B).trace
      = records s.trace ++
          (List.enumFrom 0 s.m_threadLinesMap).map (fun e =>
            "[" ++ clock e.1 ++ "] [" ++ B ++ "] [" ++
              logToString ((StdMap.find e.2.1 s.m_threadsLevelMap).getD LogLevel.valueInit)
              ++ "] " ++ e.2.2 ++ "\n") ∧
    (∀ text : String, s.m_threadLinesMap = [(A, text)] →
      ∃ r : Record, r.threadId = B ∧ r.threadId ≠ A ∧ r.message = text ∧
        records (s.flush clock B).trace = records s.trace ++ [r.render ++ "\n"]) ∧
    (∀ (A2 text : String) (L : LogLevel),
      records (({ s with m_threadLinesMap := [(A, text)],
                         m_threadsLevelMap := [(A, L)] } : Logger).flush clock B).trace
        = records (({ s with m_threadLinesMap := [(A2, text)],
                             m_threadsLevelMap := [(A2, L)] } : Logger).flush clock B).trace) := by
  refine ⟨?_, ?_, ?_⟩
  · rw [Logger.flush_records clock B s hopen]
    rfl
  · intro text hown
    refine ⟨⟨clock 0, B, (StdMap.find A s.m_threadsLevelMap).getD LogLevel.valueInit, text⟩,
      rfl, fun h => hAB h.symm, rfl, ?_⟩
    rw [Logger.flush_records clock B s hopen, hown]
    rfl
  · intro A2 text L
    have h1 := Logger.flush_records clock B
      ({ s with m_threadLinesMap := [(A, text)], m_threadsLevelMap := [(A, L)] } : Logger)
      hopen
    have h2 := Logger.flush_records clock B
      ({ s with m_threadLinesMap := [(A2, text)], m_threadsLevelMap := [(A2, L)] } : Logger)
      hopen
    rw [h1, h2]
    simp [StdMap.find]

/-- C19, at a concrete input: thread `A` has appended `boom` on the opened logger,
thread `B` calls `flush()`. -/
theorem flush_records_carry_caller_witness :
    ((Logger.«open» (fun _ => true) Logger.get).2.addChunk "A" "boom").m_isOpened = true ∧
    "A" ≠ "B" ∧
    records (((Logger.«open» (fun _ => true) Logger.get).2.addChunk "A" "boom").flush
        (fun _ => "12:00") "B").trace
      = [] ++ ["[12:00] [B] [INFO] boom\n"] :=
  ⟨rfl, by decide,
    (flush_records_carry_caller
      ((Logger.«open» (fun _ => true) Logger.get).2.addChunk "A" "boom")
      (fun _ => "12:00") "A" "B" rfl (by decide)).1⟩

/-- C20: a logger marked open stays marked open under every sequence of member
calls, and a normal return of `open()` marks it open.  In particular `close()`
leaves `m_isOpened` true, so that afterwards `open()` returns at once without any
stream statement, and `flush()` still drains: it writes one record per pending
entry and empties both maps. -/
theorem isOpened_never_reset (s s0 : Logger) (cs : List Api) (canOpen : String → Bool)
    (clock : Nat → String) (tid : String) (hopen : s.m_isOpened = true) :
    ((Logger.«open» canOpen s0).1 = Except.ok () →
      (Logger.«open» canOpen s0).2.m_isOpened = true) ∧
    (runApi cs s).m_isOpened = true ∧
    s.close.m_isOpened = true ∧
    Logger.«open» canOpen s.close = (Except.ok (), s.close) ∧
    records (s.close.flush clock tid).trace
      = records s.trace ++
          (List.enumFrom 0 s.m_threadLinesMap).map (fun e =>
            Record.render ⟨clock e.1, tid,
              (StdMap.find e.2.1 s.m_threadsLevelMap).getD LogLevel.valueInit, e.2.2⟩
              ++ "\n") ∧
    (s.close.flush clock tid).m_threadLinesMap = [] ∧
    (s.close.flush clock tid).m_threadsLevelMap = [] := by
  have hc : s.close.m_isOpened = true := by
    rw [Logger.close_isOpened]
    exact hopen
  refine ⟨?_, runApi_isOpened_mono cs s hopen, hc, Logger.open_of_opened canOpen _ hc, ?_,
    Logger.flush_lines clock tid _ hc, Logger.flush_levels clock tid _ hc⟩
  · intro hok
    rcases s0 with ⟨fn, ⟨io, fl, ct⟩, out, lv, ln, o, tr⟩
    cases o <;> cases out <;> cases io <;> cases hcan : canOpen fn <;>
      simp_all [Logger.«open», Logger.usesFile, FStream.«open»]
  · rw [Logger.flush_records clock tid _ hc, Logger.records_close, Logger.close_lines,
      Logger.close_levels]

/-- C20, at a concrete input, destination `File`: `open()`, a chunk of thread `2`,
`close()`, then `open()` and `flush()` again. -/
theorem isOpened_never_reset_witness :
    (runApi [Api.init "out.log" LogOutput.File, Api.«open» true, Api.append "2" "x",
        Api.close, Api.«open» true, Api.flush (fun _ => "12:00") "1"]
        Logger.get).trace
      = [StreamOp.fileOpen "out.log", StreamOp.fileClose,
          StreamOp.fileWrite "[12:00] [1] [INFO] x\n", StreamOp.fileFlush] ∧
    (runApi [Api.close, Api.«open» true, Api.flush (fun _ => "12:00") "1"]
        (runApi [Api.init "out.log" LogOutput.File, Api.«open» true, Api.append "2" "x"]
          Logger.get)).m_isOpened = true :=
  ⟨by decide,
   (isOpened_never_reset
      (runApi [Api.init "out.log" LogOutput.File, Api.«open» true, Api.append "2" "x"]
        Logger.get) Logger.get
      [Api.close, Api.«open» true, Api.flush (fun _ => "12:00") "1"]
      (fun _ => true) (fun _ => "12:00") "1" rfl).2.1⟩

end IkarusLogger
